import Mathlib

/-!
Verification development for the tabgen repository: a shallow embedding of
the help-text parser, content fingerprint, size guards, version detector and
generation pipeline, with theorems settling the specification claims.

Go strings are modelled as `List Char` internally (ASCII help text), wrapped
into Lean `String` at the data-model boundary.  Process execution (running
`--help`, `man`, version probes, and the persistence layer) is abstracted by
oracle parameters; everything else is translated directly from the source.
-/

namespace Tabgen

/-! ### Go string helpers (strings package, specialised to the call sites) -/

/-- Whitespace recognised by `strings.TrimSpace` / `\s` (ASCII range). -/
def isSpaceChar (c : Char) : Bool :=
  c == ' ' || c == '\t' || c == '\n' || c == '\x0b' || c == '\x0c' || c == '\r'

/-- `strings.TrimSpace` on a char list. -/
def trimSpaceC (s : List Char) : List Char :=
  ((s.dropWhile isSpaceChar).reverse.dropWhile isSpaceChar).reverse

/-- `strings.ToLower` (ASCII). -/
def toLowerC (s : List Char) : List Char := s.map Char.toLower

/-- `strings.HasPrefix` on char lists. -/
def startsWithL (p s : List Char) : Bool := p.isPrefixOf s

/-- `strings.SplitN(s, "  ", 2)`: the part before the first run of two
spaces, and (when the separator occurs) the remainder after it. -/
def splitTwoSpace : List Char → List Char × Option (List Char)
  | [] => ([], none)
  | ' ' :: ' ' :: rest => ([], some rest)
  | c :: rest =>
    let p := splitTwoSpace rest
    (c :: p.1, p.2)

/-- Auxiliary for `fieldsC`. -/
def fieldsAux : List Char → List Char → List (List Char)
  | [], acc => if acc.isEmpty then [] else [acc.reverse]
  | c :: cs, acc =>
    if isSpaceChar c then
      if acc.isEmpty then fieldsAux cs [] else acc.reverse :: fieldsAux cs []
    else fieldsAux cs (c :: acc)

/-- `strings.Fields` / `strings.FieldsSeq`: whitespace-separated tokens. -/
def fieldsC (s : List Char) : List (List Char) := fieldsAux s []

/-- `strings.TrimSuffix(tok, ",")`: drop one trailing comma. -/
def trimSuffixComma (s : List Char) : List Char :=
  if s.getLast? == some ',' then s.dropLast else s

/-- `strings.Trim(s, cutset)`: strip leading and trailing cutset chars. -/
def trimCutset (cut : List Char) (s : List Char) : List Char :=
  ((s.dropWhile (cut.contains ·)).reverse.dropWhile (cut.contains ·)).reverse

/-- `strings.Split(s, sep)` for a one-character separator. -/
def splitOnCharAux (sep : Char) : List Char → List Char → List (List Char)
  | [], acc => [acc.reverse]
  | c :: cs, acc =>
    if c == sep then acc.reverse :: splitOnCharAux sep cs []
    else splitOnCharAux sep cs (c :: acc)

/-- `strings.Split` with a one-character separator. -/
def splitOnChar (sep : Char) (s : List Char) : List (List Char) :=
  splitOnCharAux sep s []

/-- Pack a char list back into a `String`. -/
def strOf (s : List Char) : String := String.mk s

/-! ### Data model (internal/types/types.go) -/

/-- `types.Flag`: a command-line flag. -/
structure Flag where
  name : String
  short : String
  arg : String
  argumentValues : List String
  description : String
  required : Bool
deriving DecidableEq, Repr

/-- The zero `types.Flag` value. -/
def Flag.empty : Flag := ⟨"", "", "", [], "", false⟩

/-- `types.Command`: a command or subcommand (nested). -/
inductive Command where
  | mk (name : String) (aliases : List String) (description : String)
       (subcommands : List Command) (flags : List Flag)

/-- Command name accessor. -/
def Command.name : Command → String
  | .mk n _ _ _ _ => n

/-- Command aliases accessor. -/
def Command.aliases : Command → List String
  | .mk _ a _ _ _ => a

/-- Command description accessor. -/
def Command.description : Command → String
  | .mk _ _ d _ _ => d

/-- Command subcommands accessor. -/
def Command.subcommands : Command → List Command
  | .mk _ _ _ s _ => s

/-- Command flags accessor. -/
def Command.flags : Command → List Flag
  | .mk _ _ _ _ f => f

/-- Replace a command's subcommands list. -/
def Command.withSubcommands : Command → List Command → Command
  | .mk n a d _ f, s => .mk n a d s f

/-- Replace a command's flags list. -/
def Command.withFlags : Command → List Flag → Command
  | .mk n a d s _, f => .mk n a d s f

/-- `types.Tool`: a parsed CLI tool.  `parsedAt` stands in for the Go
`time.Time` timestamp. -/
structure Tool where
  name : String
  path : String
  version : String
  parsedAt : Nat
  source : String
  subcommands : List Command
  globalFlags : List Flag

/-! ### parseFlagLine (parser, part_009 lines 541-644) -/

/-- One iteration of the token loop in `parseFlagLine`. -/
def applyFlagToken (f : Flag) (tok0 : List Char) : Flag :=
  let tok := trimSuffixComma tok0
  if startsWithL "--".toList tok then
    match tok.findIdx? (· == '=') with
    | some idx =>
      if idx > 0 then
        let name := tok.take idx
        let argPart := trimCutset "<>[]()\x7b\x7d".toList (tok.drop (idx + 1))
        if argPart.contains '|' then
          let values := (splitOnChar '|' argPart).map (fun v => strOf (trimSpaceC v))
          let f := { f with argumentValues := values }
          let f := if values.length > 0 then { f with arg := "value" } else f
          { f with name := strOf name }
        else
          { f with arg := strOf argPart, name := strOf name }
      else { f with name := strOf tok }
    | none => { f with name := strOf tok }
  else if startsWithL "-".toList tok && tok.length == 2 then
    { f with short := strOf tok }
  else if startsWithL "<".toList tok || startsWithL "[".toList tok then
    let argContent := trimCutset "<>[]".toList tok
    if argContent.contains '|' then
      let values := (splitOnChar '|' argContent).map (fun v => strOf (trimSpaceC v))
      { f with argumentValues := values, arg := "value" }
    else
      { f with arg := strOf argContent }
  else if startsWithL "\x7b".toList tok || startsWithL "(".toList tok then
    let content := trimCutset "\x7b\x7d()".toList tok
    let values :=
      if content.contains '|' then splitOnChar '|' content
      else if content.contains ',' then splitOnChar ',' content
      else []
    if values.length > 0 then
      { f with argumentValues := values.map (fun v => strOf (trimSpaceC v)),
               arg := "value" }
    else f
  else f

/-- `parseFlagLine` on a char list. -/
def parseFlagLineC (line : List Char) : Option Flag :=
  let trimmed := trimSpaceC line
  if trimmed.isEmpty then none
  else if !startsWithL "-".toList trimmed then none
  else
    let parts := splitTwoSpace trimmed
    let desc := match parts.2 with
      | some r => strOf (trimSpaceC r)
      | none => ""
    let f0 : Flag := { Flag.empty with description := desc }
    let f := (fieldsC parts.1).foldl applyFlagToken f0
    if f.name = "" && f.short = "" then none
    else if f.name = "" then some { f with name := f.short, short := "" }
    else some f

/-- `parseFlagLine`: extract a flag from one help line. -/
def parseFlagLine (line : String) : Option Flag := parseFlagLineC line.toList

example : parseFlagLine "--format=json|yaml" =
    some ⟨"--format", "", "value", ["json", "yaml"], "", false⟩ := by decide

example : parseFlagLine "  -v, --verbose         Enable verbose output" =
    some ⟨"--verbose", "-v", "", [], "Enable verbose output", false⟩ := by decide

example : parseFlagLine "  -h                    Show help" =
    some ⟨"-h", "", "", [], "Show help", false⟩ := by decide

example : parseFlagLine "  --level \x7bdebug,info\x7d   Log level" =
    some ⟨"--level", "", "value", ["debug", "info"], "Log level", false⟩ := by decide

example : parseFlagLine "  command     Do something" = none := by decide

/-! ### Command-line classification (parser, part_009 lines 432-538, 694-722) -/

/-- `isValidCommandName`: 1-30 chars of letters, digits, hyphen, underscore. -/
def isValidCommandNameC (s : List Char) : Bool :=
  !s.isEmpty && s.length ≤ 30 &&
    s.all (fun c =>
      (97 ≤ c.toNat && c.toNat ≤ 122) || (65 ≤ c.toNat && c.toNat ≤ 90) ||
      (48 ≤ c.toNat && c.toNat ≤ 57) || c == '-' || c == '_')

/-- The alias-selection loop of `parseCommandLine`: the longest valid name
wins the primary slot, the rest become aliases in encounter order. -/
def pickPrimary (primary : List Char) (aliases : List (List Char)) :
    List (List Char) → List Char × List (List Char)
  | [] => (primary, aliases)
  | n :: rest =>
    if n.length > primary.length then pickPrimary n (aliases ++ [primary]) rest
    else pickPrimary primary (aliases ++ [n]) rest

/-- `parseCommandLine` on a char list. -/
def parseCommandLineC (line : List Char) : Option Command :=
  let trimmed := trimSpaceC line
  if trimmed.isEmpty then none
  else if startsWithL "-".toList trimmed then none
  else
    let parts := splitTwoSpace trimmed
    let cmdPart := trimSpaceC parts.1
    let desc := match parts.2 with
      | some r => strOf (trimSpaceC r)
      | none => ""
    if cmdPart.contains ',' then
      let validNames := ((splitOnChar ',' cmdPart).map trimSpaceC).filter isValidCommandNameC
      match validNames with
      | [] => none
      | first :: rest =>
        let p := pickPrimary first [] rest
        some (.mk (strOf p.1) (p.2.map strOf) desc [] [])
    else
      if !isValidCommandNameC cmdPart then none
      else some (.mk (strOf cmdPart) [] desc [] [])

/-- `parseCommandLine`: extract a command from a help line. -/
def parseCommandLine (line : String) : Option Command := parseCommandLineC line.toList

/-- `parseIndentedCommand` on a char list (git-style indented command). -/
def parseIndentedCommandC (line : List Char) : Option Command :=
  let trimmed := trimSpaceC line
  if trimmed.isEmpty then none
  else if startsWithL "-".toList trimmed || startsWithL "(".toList trimmed then none
  else
    let parts := splitTwoSpace trimmed
    match parts.2 with
    | none => none
    | some rest =>
      let cmdName := trimSpaceC parts.1
      let desc := trimSpaceC rest
      if !isValidCommandNameC cmdName then none
      else if desc.isEmpty then none
      else some (.mk (strOf cmdName) [] (strOf desc) [] [])

/-- `parseIndentedCommand` on a `String`. -/
def parseIndentedCommand (line : String) : Option Command :=
  parseIndentedCommandC line.toList

/-! ### UniqueSet (part_009 lines 66-101): duplicate suppression keyed by
identity.  `Add` appends only when no present item carries the same key. -/

/-- `UniqueSet.Add` for flags, keyed by `Flag.name`. -/
def addUniqueFlag (flags : List Flag) (f : Flag) : List Flag :=
  if flags.any (fun g => g.name == f.name) then flags else flags ++ [f]

/-- `UniqueSet.Add` for commands, keyed by `Command.name`. -/
def addUniqueCmd (cmds : List Command) (c : Command) : List Command :=
  if cmds.any (fun d => d.name == c.name) then cmds else cmds ++ [c]

/-- Optional add: Go guards each `Add` with a `nil` check on the parse. -/
def addFlagOpt (flags : List Flag) (f : Option Flag) : List Flag :=
  match f with
  | some f => addUniqueFlag flags f
  | none => flags

/-- Optional add for commands. -/
def addCmdOpt (cmds : List Command) (c : Option Command) : List Command :=
  match c with
  | some c => addUniqueCmd cmds c
  | none => cmds

/-! ### parseHelpOutput (part_009 lines 359-430) -/

/-- Mutable state of the extraction loops: section mode plus the two sibling
lists being grown. -/
structure ExtractState where
  inCommands : Bool
  inOptions : Bool
  subs : List Command
  flags : List Flag

/-- One line of `parseHelpOutput`. -/
def helpLineStep (st : ExtractState) (line : List Char) : ExtractState :=
  let trimmed := trimSpaceC line
  let lower := toLowerC trimmed
  if startsWithL "commands:".toList lower ||
     startsWithL "available commands:".toList lower ||
     startsWithL "subcommands:".toList lower ||
     lower == "commands".toList then
    { st with inCommands := true, inOptions := false }
  else if startsWithL "options:".toList lower ||
     startsWithL "flags:".toList lower ||
     startsWithL "global options:".toList lower ||
     startsWithL "global flags:".toList lower ||
     lower == "options".toList || lower == "flags".toList then
    { st with inCommands := false, inOptions := true }
  else if trimmed.isEmpty then st
  else
    let subs1 := if st.inCommands then addCmdOpt st.subs (parseCommandLineC line) else st.subs
    let flags1 := if st.inOptions then addFlagOpt st.flags (parseFlagLineC line) else st.flags
    let flags2 :=
      if !st.inOptions && startsWithL "-".toList (trimSpaceC line) then
        addFlagOpt flags1 (parseFlagLineC line)
      else flags1
    let subs2 :=
      if !st.inCommands && !st.inOptions && line.length > 3 &&
         (line.head? == some ' ' || line.head? == some '\t') then
        addCmdOpt subs1 (parseIndentedCommandC line)
      else subs1
    { st with subs := subs2, flags := flags2 }

/-- `parseHelpOutput`: grow the tool's top-level `Subcommands`/`GlobalFlags`
from one help text. -/
def parseHelpOutput (tool : Tool) (output : String) : Tool :=
  let st := (splitOnChar '\n' output.toList).foldl helpLineStep
    ⟨false, false, tool.subcommands, tool.globalFlags⟩
  { tool with subcommands := st.subs, globalFlags := st.flags }

/-! ### parseSubcommandOutput (part_009 lines 268-324) -/

/-- One line of `parseSubcommandOutput` (fewer header aliases, combined
flag branch). -/
def subLineStep (st : ExtractState) (line : List Char) : ExtractState :=
  let trimmed := trimSpaceC line
  let lower := toLowerC trimmed
  if startsWithL "commands:".toList lower ||
     startsWithL "available commands:".toList lower ||
     startsWithL "subcommands:".toList lower then
    { st with inCommands := true, inOptions := false }
  else if startsWithL "options:".toList lower ||
     startsWithL "flags:".toList lower then
    { st with inCommands := false, inOptions := true }
  else if trimmed.isEmpty then st
  else
    let subs1 := if st.inCommands then addCmdOpt st.subs (parseCommandLineC line) else st.subs
    let flags1 :=
      if st.inOptions || startsWithL "-".toList trimmed then
        addFlagOpt st.flags (parseFlagLineC line)
      else st.flags
    let subs2 :=
      if !st.inCommands && !st.inOptions && line.length > 3 &&
         (line.head? == some ' ' || line.head? == some '\t') then
        addCmdOpt subs1 (parseIndentedCommandC line)
      else subs1
    { st with subs := subs2, flags := flags1 }

/-- `parseSubcommandOutput`: grow one command's own `Flags`/`Subcommands`
from that command's help text. -/
def parseSubcommandOutput (cmd : Command) (output : String) : Command :=
  let st := (splitOnChar '\n' output.toList).foldl subLineStep
    ⟨false, false, cmd.subcommands, cmd.flags⟩
  (cmd.withSubcommands st.subs).withFlags st.flags

/-! ### parseManPage (part_009 lines 646-692) -/

/-- `isManSectionHeader`. -/
def isManSectionHeader (s : List Char) : Bool :=
  ["NAME", "SYNOPSIS", "DESCRIPTION", "OPTIONS", "ARGUMENTS",
   "COMMANDS", "EXIT STATUS", "ENVIRONMENT", "FILES",
   "EXAMPLES", "SEE ALSO", "BUGS", "AUTHOR", "AUTHORS",
   "HISTORY", "NOTES", "CAVEATS", "DIAGNOSTICS"].any
    (fun h => s == h.toList || startsWithL (h.toList ++ [' ']) s)

/-- State of the man-page loop: options mode, index of the flag whose
description may still be filled by a continuation line, flags so far. -/
structure ManState where
  inOptions : Bool
  cur : Option Nat
  flags : List Flag

/-- One line of `parseManPage`. -/
def manLineStep (st : ManState) (line : List Char) : ManState :=
  let trimmed := trimSpaceC line
  if trimmed == "OPTIONS".toList || startsWithL "OPTIONS".toList trimmed then
    { st with inOptions := true }
  else if st.inOptions && !line.isEmpty &&
      !(line.head? == some ' ' || line.head? == some '\t') &&
      isManSectionHeader trimmed then
    { st with inOptions := false }
  else if !st.inOptions then st
  else if startsWithL "-".toList trimmed then
    match parseFlagLineC line with
    | some f =>
      let flags' := addUniqueFlag st.flags f
      if flags'.length > st.flags.length then
        { st with flags := flags', cur := some (flags'.length - 1) }
      else { st with flags := flags' }
    | none => st
  else
    match st.cur with
    | some i =>
      if !trimmed.isEmpty then
        match st.flags.get? i with
        | some fl =>
          if fl.description = "" then
            { st with flags := st.flags.set i { fl with description := strOf trimmed } }
          else st
        | none => st
      else st
    | none => st

/-- `parseManPage`: grow the tool's `GlobalFlags` from man-page text. -/
def parseManPage (tool : Tool) (output : String) : Tool :=
  let st := (splitOnChar '\n' output.toList).foldl manLineStep
    ⟨false, none, tool.globalFlags⟩
  { tool with globalFlags := st.flags }

/-! ### Parser configuration (part_009 lines 16-33).  Timeouts are carried
as plain millisecond values: the pure model records which bound each probe
is given, while the waiting itself is part of the abstracted process
execution. -/

/-- `ParserConfig`. -/
structure ParserConfig where
  maxDepth : Nat
  helpTimeoutMs : Nat
  versionCmds : List String
deriving DecidableEq, Repr

/-- `DefaultConfig`: MaxDepth 2, HelpTimeout 5s, probes
`--version`, `-V`, `version`, `-v`. -/
def DefaultConfig : ParserConfig :=
  { maxDepth := 2, helpTimeoutMs := 5000,
    versionCmds := ["--version", "-V", "version", "-v"] }

/-! ### Version extraction (internal/parser/version.go)

`extractVersion` applies two fixed regular expressions to the first line;
they are realised here as direct matchers with RE2/Go preference order
(leftmost start, greedy quantifiers, optional groups tried present-first).
-/

/-- `\d`. -/
def isDigitC (c : Char) : Bool := 48 ≤ c.toNat && c.toNat ≤ 57

/-- `[a-zA-Z0-9.]`. -/
def isAlnumDotC (c : Char) : Bool :=
  (97 ≤ c.toNat && c.toNat ≤ 122) || (65 ≤ c.toNat && c.toNat ≤ 90) ||
    isDigitC c || c == '.'

/-- `\s` in RE2: tab, newline, form feed, carriage return, space. -/
def isSpaceRE (c : Char) : Bool :=
  c == '\t' || c == '\n' || c == '\x0c' || c == '\r' || c == ' '

/-- Match `\d+\.\d+(?:\.\d+)?` at the head, returning the matched text and
the rest.  Greediness of each `\d+` is forced (a digit run can only end at a
non-digit, and `\.` requires a dot). -/
def matchBareNum (s : List Char) : Option (List Char × List Char) :=
  let d1 := s.takeWhile isDigitC
  if d1.isEmpty then none
  else
    match s.drop d1.length with
    | '.' :: r2 =>
      let d2 := r2.takeWhile isDigitC
      if d2.isEmpty then none
      else
        let rest2 := r2.drop d2.length
        match rest2 with
        | '.' :: r3 =>
          let d3 := r3.takeWhile isDigitC
          if d3.isEmpty then some (d1 ++ '.' :: d2, rest2)
          else some (d1 ++ '.' :: d2 ++ '.' :: d3, r3.drop d3.length)
        | _ => some (d1 ++ '.' :: d2, rest2)
    | _ => none

/-- Match `\d+\.\d+(?:\.\d+)?(?:[-+][a-zA-Z0-9.]+)?` at the head, returning
the capture-group text. -/
def matchNumber (s : List Char) : Option (List Char) :=
  match matchBareNum s with
  | none => none
  | some (core, rest) =>
    match rest with
    | c :: r4 =>
      if c == '-' || c == '+' then
        let sfx := r4.takeWhile isAlnumDotC
        if sfx.isEmpty then some core else some (core ++ c :: sfx)
      else some core
    | [] => some core

/-- Match `v?` (case-insensitive) then the number, present-option first. -/
def matchVNum (s : List Char) : Option (List Char) :=
  match s with
  | c :: r =>
    if c == 'v' || c == 'V' then
      match matchNumber r with
      | some cap => some cap
      | none => matchNumber s
    else matchNumber s
  | [] => none

/-- Match `(?:version\s+)?v?(num)` at the head (case-insensitive),
label-present option first. -/
def matchLabelVNum (s : List Char) : Option (List Char) :=
  let labelled :=
    if (s.take 7).map Char.toLower == "version".toList then
      let r := s.drop 7
      let sp := r.takeWhile isSpaceRE
      if sp.isEmpty then none else matchVNum (r.drop sp.length)
    else none
  match labelled with
  | some cap => some cap
  | none => matchVNum s

/-- Unanchored scan for pattern 1, leftmost start position first. -/
def scanVersionPattern : List Char → Option (List Char)
  | [] => none
  | s@(_ :: rest) =>
    match matchLabelVNum s with
    | some cap => some cap
    | none => scanVersionPattern rest

/-- `extractVersion`: first line of the trimmed output through pattern 1,
then the line-anchored bare-number pattern, then the short-line verbatim
fallback, otherwise empty. -/
def extractVersion (output : String) : String :=
  let lines := splitOnChar '\n' (trimSpaceC output.toList)
  let firstLine := lines.headD []
  match scanVersionPattern firstLine with
  | some cap => strOf cap
  | none =>
    match matchBareNum firstLine with
    | some (cap, _) => strOf cap
    | none =>
      if firstLine.length < 50 && firstLine.length > 0 then
        strOf (trimSpaceC firstLine)
      else ""

/-- `tryVersionFlagWithTimeout` with process execution abstracted: the
oracle yields `none` when the probe errors (including timeout) and the
combined output otherwise; an errored probe contributes `""`. -/
def tryVersionFlag (oracle : String → Option String) (flag : String) : String :=
  match oracle flag with
  | none => ""
  | some out => extractVersion out

/-- The timeout handed to every version probe by
`detectVersionWithConfig`: the config's `HelpTimeout`. -/
def versionProbeTimeoutMs (cfg : ParserConfig) : Nat := cfg.helpTimeoutMs

/-- The probe loop of `detectVersionWithConfig`. -/
def firstVersion (oracle : String → Option String) : List String → String
  | [] => ""
  | f :: rest =>
    let v := tryVersionFlag oracle f
    if v ≠ "" then v else firstVersion oracle rest

/-- `detectVersionWithConfig`: try each configured probe in order, return
the first non-empty extraction. -/
def detectVersionWithConfig (oracle : String → Option String)
    (cfg : ParserConfig) : String :=
  firstVersion oracle cfg.versionCmds

/-! ### Subcommand explorer (part_009 lines 222-266)

`runSubcommandHelp` (process execution, including its internal
`help <sub>` retry) is abstracted by an oracle from (base invocation path,
subcommand name) to combined output.  The function also returns the trace
of help probes it issued, in order. -/

/-- The recursion of `parseNestedSubcommands`, driven by the remaining
depth budget `maxDepth - depth` (zero exactly when `depth >= maxDepth`,
where the source returns immediately). -/
def parseNestedGo (oracle : String → String → String) :
    Nat → String → List Command → List Command × List (String × String)
  | 0, _, cmds => (cmds, [])
  | fuel + 1, basePath, cmds =>
    let results := cmds.map (fun cmd =>
      let output := oracle basePath cmd.name
      if output = "" then (cmd, [(basePath, cmd.name)])
      else
        let cmd' := parseSubcommandOutput cmd output
        if cmd'.subcommands.length > 0 then
          let r := parseNestedGo oracle fuel (basePath ++ " " ++ cmd.name)
            cmd'.subcommands
          (cmd'.withSubcommands r.1, (basePath, cmd.name) :: r.2)
        else (cmd', [(basePath, cmd.name)]))
    (results.map Prod.fst, (results.map Prod.snd).flatten)

/-- `parseNestedSubcommands` with a probe trace. -/
def parseNestedT (oracle : String → String → String) (basePath : String)
    (cmds : List Command) (depth maxDepth : Nat) :
    List Command × List (String × String) :=
  parseNestedGo oracle (maxDepth - depth) basePath cmds

mutual

/-- Nesting height of one command (the command itself counts one level). -/
def heightC : Command → Nat
  | .mk _ _ _ subs _ => 1 + heightL subs

/-- Nesting height of a sibling list. -/
def heightL : List Command → Nat
  | [] => 0
  | c :: cs => max (heightC c) (heightL cs)

end

/-! ### Size/complexity guard (internal/generator/limits.go) -/

/-- `MaxOutputSize`: 1MB. -/
def maxOutputSize : Nat := 1 * 1024 * 1024

/-- `MaxSubcommands`. -/
def maxSubcommands : Nat := 500

/-- `MaxFlags`. -/
def maxFlags : Nat := 200

/-- `MaxTotalItems`. -/
def maxTotalItems : Nat := 2000

mutual

/-- `countCommandItems` lifted over a sibling list: each listed command
counts itself plus its nested counts, flags are summed. -/
def countCmdList : List Command → Nat × Nat
  | [] => (0, 0)
  | c :: cs =>
    let a := countCommandItems c
    let b := countCmdList cs
    (1 + a.1 + b.1, a.2 + b.2)

/-- `countCommandItems`: recursive (subcommands, flags) counts within one
command, the command itself not counted. -/
def countCommandItems : Command → Nat × Nat
  | .mk _ _ _ subs flags =>
    let p := countCmdList subs
    (p.1, flags.length + p.2)

end

/-- `countItems`: recursive (subcommands, flags) counts of a tool. -/
def countItems (tool : Tool) : Nat × Nat :=
  let p := countCmdList tool.subcommands
  (p.1, tool.globalFlags.length + p.2)

mutual

/-- `truncateSubcommandFlags`: cut each over-long per-command flags list to
`MaxFlags`, recursively, recording one warning per cut list. -/
def truncSubFlags : List Command → List Command × List String
  | [] => ([], [])
  | cmd :: rest =>
    let r1 := truncCmdFlags cmd
    let tailRes := truncSubFlags rest
    (r1.1 :: tailRes.1, r1.2 ++ tailRes.2)

/-- The per-command body of `truncateSubcommandFlags`: its own flags list,
then its nested subcommands. -/
def truncCmdFlags : Command → Command × List String
  | .mk n al de subs flags =>
    let cut := flags.length > maxFlags
    let flags1 := if cut then flags.take maxFlags else flags
    let w1 : List String :=
      if cut then
        ["truncated flags for '" ++ n ++ "' from " ++
          toString flags.length ++ " to " ++ toString maxFlags]
      else []
    let nested := if subs.length > 0 then truncSubFlags subs else (subs, [])
    (.mk n al de nested.1 flags1, w1 ++ nested.2)

end

/-- `truncateTool`: the shared size/complexity guard. -/
def truncateTool (tool : Tool) : Tool × List String :=
  let orig := countItems tool
  let totalItems := orig.1 + orig.2
  let needsTruncation := orig.1 > maxSubcommands ||
    tool.globalFlags.length > maxFlags || totalItems > maxTotalItems
  if !needsTruncation then (tool, [])
  else
    let cutG := tool.globalFlags.length > maxFlags
    let gf := if cutG then tool.globalFlags.take maxFlags else tool.globalFlags
    let w1 : List String :=
      if cutG then
        ["truncated global flags from " ++ toString tool.globalFlags.length ++
          " to " ++ toString maxFlags]
      else []
    let cutS := tool.subcommands.length > maxSubcommands
    let subs := if cutS then tool.subcommands.take maxSubcommands else tool.subcommands
    let w2 : List String :=
      if cutS then
        ["truncated subcommands from " ++ toString tool.subcommands.length ++
          " to " ++ toString maxSubcommands]
      else []
    let r := truncSubFlags subs
    let t' := { tool with globalFlags := gf, subcommands := r.1 }
    let fin := countItems t'
    let w4 : List String :=
      if fin.1 + fin.2 > maxTotalItems then
        ["tool still has " ++ toString (fin.1 + fin.2) ++
          " items after truncation (max " ++ toString maxTotalItems ++ ")"]
      else []
    (t', w1 ++ w2 ++ r.2 ++ w4)

/-- `lastNewline`: index of the last `\n`, `-1` when there is none. -/
def lastNewline : List Char → Int
  | [] => -1
  | c :: cs =>
    let r := lastNewline cs
    if r ≥ 0 then r + 1
    else if c = '\n' then 0 else -1

/-- The truncation marker appended by `checkOutputSize`. -/
def truncMarker : String := "\n# WARNING: Script truncated due to size limits\n"

/-- `checkOutputSize`: cap a generated script at `MaxOutputSize` bytes,
preferring a cut at the last newline of the kept prefix when that newline
lies strictly past the halfway point. -/
def checkOutputSize (script : List Char) (toolName : String) :
    List Char × List String :=
  if script.length > maxOutputSize then
    let w := ["generated script for '" ++ toolName ++ "' exceeds " ++
      toString maxOutputSize ++ " bytes (" ++ toString script.length ++
      " bytes), truncating"]
    let t := script.take maxOutputSize
    let t2 :=
      if lastNewline t > (maxOutputSize / 2 : Int) then
        t.take ((lastNewline t).toNat + 1)
      else t
    (t2 ++ truncMarker.toList, w)
  else (script, [])

/-! ### Content fingerprint (internal/types/types.go lines 42-60)

`ContentHash` is SHA-256 over `encoding/json.Marshal` of a struct holding
exactly `Subcommands` and `GlobalFlags` (with `omitempty` on both, as on
every optional field of `Command`/`Flag`).  The encoder below reproduces
Go's output: declaration-order keys, empty values omitted, and Go's string
escaping (HTML escaping enabled). -/

/-- Go `encoding/json` escaping of one character (safeSet with HTML
escaping): backslash, quote, `<`, `>`, `&`, control chars, U+2028/U+2029. -/
def jsonEscapeChar (c : Char) : List Char :=
  if c == '\\' then ['\\', '\\']
  else if c == '"' then ['\\', '"']
  else if c == '\n' then ['\\', 'n']
  else if c == '\r' then ['\\', 'r']
  else if c == '\t' then ['\\', 't']
  else if c.toNat < 32 then
    let hexDigit (n : Nat) : Char := if n < 10 then Char.ofNat (48 + n) else Char.ofNat (87 + n)
    ['\\', 'u', '0', '0', hexDigit (c.toNat / 16), hexDigit (c.toNat % 16)]
  else if c == '<' then "\\u003c".toList
  else if c == '>' then "\\u003e".toList
  else if c == '&' then "\\u0026".toList
  else if c.toNat == 0x2028 then "\\u2028".toList
  else if c.toNat == 0x2029 then "\\u2029".toList
  else [c]

/-- JSON string literal for `s`. -/
def jsonStr (s : String) : List Char :=
  '"' :: (s.toList.map jsonEscapeChar).flatten ++ ['"']

/-- Comma-join a list of encoded values. -/
def jsonJoin : List (List Char) → List Char
  | [] => []
  | [x] => x
  | x :: xs => x ++ ',' :: jsonJoin xs

/-- A JSON object from the present (non-omitted) key/value pairs. -/
def jsonObj (fields : List (List Char)) : List Char :=
  '\x7b' :: jsonJoin fields ++ ['\x7d']

/-- One present object member. -/
def jsonField (key : String) (val : List Char) : List Char :=
  jsonStr key ++ ':' :: val

/-- A JSON array. -/
def jsonArr (elems : List (List Char)) : List Char :=
  '[' :: jsonJoin elems ++ [']']

/-- Encoding of a `types.Flag` (fields in declaration order, `omitempty`
on all but `name`). -/
def encodeFlag (f : Flag) : List Char :=
  jsonObj <|
    [jsonField "name" (jsonStr f.name)] ++
    (if f.short = "" then [] else [jsonField "short" (jsonStr f.short)]) ++
    (if f.arg = "" then [] else [jsonField "arg" (jsonStr f.arg)]) ++
    (if f.argumentValues.isEmpty then []
     else [jsonField "argument_values" (jsonArr (f.argumentValues.map jsonStr))]) ++
    (if f.description = "" then [] else [jsonField "description" (jsonStr f.description)]) ++
    (if f.required then [jsonField "required" "true".toList] else [])

mutual

/-- Encoding of a `types.Command`. -/
def encodeCommand : Command → List Char
  | .mk n al de subs flags =>
    jsonObj <|
      [jsonField "name" (jsonStr n)] ++
      (if al.isEmpty then [] else [jsonField "aliases" (jsonArr (al.map jsonStr))]) ++
      (if de = "" then [] else [jsonField "description" (jsonStr de)]) ++
      (if subs.isEmpty then [] else [jsonField "subcommands" (jsonArr (encodeCommands subs))]) ++
      (if flags.isEmpty then [] else [jsonField "flags" (jsonArr (flags.map encodeFlag))])

/-- Encoding of a command list, element-wise. -/
def encodeCommands : List Command → List (List Char)
  | [] => []
  | c :: cs => encodeCommand c :: encodeCommands cs

end

/-- `json.Marshal` of the anonymous content struct inside `ContentHash`:
exactly `Subcommands` and `GlobalFlags`, both `omitempty`. -/
def contentEncoding (t : Tool) : List Char :=
  jsonObj <|
    (if t.subcommands.isEmpty then []
     else [jsonField "subcommands" (jsonArr (encodeCommands t.subcommands))]) ++
    (if t.globalFlags.isEmpty then []
     else [jsonField "global_flags" (jsonArr (t.globalFlags.map encodeFlag))])

/-! SHA-256 (crypto/sha256), on lists of byte values. -/

/-- UTF-8 bytes of one character. -/
def utf8Char (c : Char) : List Nat :=
  let n := c.toNat
  if n < 0x80 then [n]
  else if n < 0x800 then [0xc0 + n / 64, 0x80 + n % 64]
  else if n < 0x10000 then [0xe0 + n / 4096, 0x80 + n / 64 % 64, 0x80 + n % 64]
  else [0xf0 + n / 262144, 0x80 + n / 4096 % 64, 0x80 + n / 64 % 64, 0x80 + n % 64]

/-- UTF-8 bytes of a char list. -/
def utf8Bytes (s : List Char) : List Nat := (s.map utf8Char).flatten

/-- 32-bit word arithmetic. -/
def w32 (n : Nat) : Nat := n % 4294967296

/-- Right rotation of a 32-bit word. -/
def rotr32 (x n : Nat) : Nat := w32 ((x >>> n) ||| (x <<< (32 - n)))

/-- SHA-256 round constants. -/
def sha256K : List Nat :=
  [1116352408, 1899447441, 3049323471, 3921009573, 961987163,
   1508970993, 2453635748, 2870763221, 3624381080, 310598401,
   607225278, 1426881987, 1925078388, 2162078206, 2614888103,
   3248222580, 3835390401, 4022224774, 264347078, 604807628,
   770255983, 1249150122, 1555081692, 1996064986, 2554220882,
   2821834349, 2952996808, 3210313671, 3336571891, 3584528711,
   113926993, 338241895, 666307205, 773529912, 1294757372,
   1396182291, 1695183700, 1986661051, 2177026350, 2456956037,
   2730485921, 2820302411, 3259730800, 3345764771, 3516065817,
   3600352804, 4094571909, 275423344, 430227734, 506948616,
   659060556, 883997877, 958139571, 1322822218, 1537002063,
   1747873779, 1955562222, 2024104815, 2227730452, 2361852424,
   2428436474, 2756734187, 3204031479, 3329325298]

/-- SHA-256 padding: 0x80, zeros, and the 64-bit big-endian bit length. -/
def sha256Pad (msg : List Nat) : List Nat :=
  let len := msg.length
  let zeros := (64 - (len + 9) % 64) % 64
  let bitLen := len * 8
  msg ++ [0x80] ++ List.replicate zeros 0 ++
    [bitLen / 2 ^ 56 % 256, bitLen / 2 ^ 48 % 256, bitLen / 2 ^ 40 % 256,
     bitLen / 2 ^ 32 % 256, bitLen / 2 ^ 24 % 256, bitLen / 2 ^ 16 % 256,
     bitLen / 2 ^ 8 % 256, bitLen % 256]

/-- Split bytes into 64-byte blocks (fuel-driven; one unit of fuel per
block suffices). -/
def sha256BlocksGo : Nat → List Nat → List (List Nat)
  | 0, _ => []
  | fuel + 1, bs =>
    if bs.isEmpty then []
    else bs.take 64 :: sha256BlocksGo fuel (bs.drop 64)

/-- Split padded bytes into 64-byte blocks. -/
def sha256Blocks (bs : List Nat) : List (List Nat) :=
  sha256BlocksGo (bs.length / 64 + 1) bs

/-- The 16 initial message-schedule words of a block (big-endian). -/
def blockWords (block : List Nat) : List Nat :=
  (List.range 16).map (fun i =>
    block.getD (4 * i) 0 * 16777216 + block.getD (4 * i + 1) 0 * 65536 +
    block.getD (4 * i + 2) 0 * 256 + block.getD (4 * i + 3) 0)

/-- Extend the schedule to 64 words. -/
def sha256Schedule (ws : List Nat) : List Nat :=
  (List.range 48).foldl (fun w j =>
    let i := j + 16
    let x15 := w.getD (i - 15) 0
    let x2 := w.getD (i - 2) 0
    let s0 := (rotr32 x15 7) ^^^ (rotr32 x15 18) ^^^ (x15 >>> 3)
    let s1 := (rotr32 x2 17) ^^^ (rotr32 x2 19) ^^^ (x2 >>> 10)
    w ++ [w32 (w.getD (i - 16) 0 + s0 + w.getD (i - 7) 0 + s1)]) ws

/-- One SHA-256 compression round. -/
def sha256Round (st : List Nat) (kw : Nat × Nat) : List Nat :=
  match st with
  | [a, b, c, d, e, f, g, h] =>
    let s1 := (rotr32 e 6) ^^^ (rotr32 e 11) ^^^ (rotr32 e 25)
    let ch := (e &&& f) ^^^ ((4294967295 - e) &&& g)
    let t1 := w32 (h + s1 + ch + kw.1 + kw.2)
    let s0 := (rotr32 a 2) ^^^ (rotr32 a 13) ^^^ (rotr32 a 22)
    let mj := (a &&& b) ^^^ (a &&& c) ^^^ (b &&& c)
    let t2 := w32 (s0 + mj)
    [w32 (t1 + t2), a, b, c, w32 (d + t1), e, f, g]
  | other => other

/-- Compress one block into the running hash state. -/
def sha256Compress (hs : List Nat) (block : List Nat) : List Nat :=
  let ws := sha256Schedule (blockWords block)
  let st := (sha256K.zip ws).foldl sha256Round hs
  (hs.zip st).map (fun p => w32 (p.1 + p.2))

/-- SHA-256 digest of a byte list, as 32 bytes. -/
def sha256Digest (msg : List Nat) : List Nat :=
  let init := [1779033703, 3144134277, 1013904242, 2773480762,
               1359893119, 2600822924, 528734635, 1541459225]
  let hs := (sha256Blocks (sha256Pad msg)).foldl sha256Compress init
  (hs.map (fun h => [h / 16777216 % 256, h / 65536 % 256, h / 256 % 256, h % 256])).flatten

/-- `hex.EncodeToString`: lowercase hex of a byte list. -/
def hexOfBytes (bs : List Nat) : String :=
  let hexDigit (n : Nat) : Char := if n < 10 then Char.ofNat (48 + n) else Char.ofNat (87 + n)
  strOf ((bs.map (fun b => [hexDigit (b / 16 % 16), hexDigit (b % 16)])).flatten)

/-- `Tool.ContentHash`: hex SHA-256 of the canonical content encoding. -/
def Tool.contentHash (t : Tool) : String :=
  hexOfBytes (sha256Digest (utf8Bytes (contentEncoding t)))

/-! ### Parse (part_009 lines 107-220)

Input validation, then version/help/man probes, extraction, source
tagging and nested exploration.  The filesystem stat and the three probe
kinds are oracle parameters; the model additionally returns the ordered
trace of probes it issued, which is empty exactly when validation failed
before any probe. -/

/-- Outcome of `os.Stat(path)`. -/
inductive StatResult where
  | notExist
  | accessErr (e : String)
  | entry (isDir : Bool) (mode : Nat)
deriving DecidableEq

/-- Outcome of `getManPage` (`man <name>` via `cmd.Output()`). -/
inductive ManOutcome where
  | errPerm
  | errOther
  | ok (out : String)

/-- One external probe issued by `Parse`. -/
inductive ProbeEvent where
  | version (flag : String)
  | help
  | man
  | sub (basePath : String) (sub : String)
deriving DecidableEq

/-- The probe loop of `detectVersionWithConfig`, with the list of flags it
actually tried (each tried flag is one spawned process). -/
def firstVersionT (oracle : String → Option String) :
    List String → String × List String
  | [] => ("", [])
  | f :: rest =>
    let v := tryVersionFlag oracle f
    if v ≠ "" then (v, [f])
    else
      let r := firstVersionT oracle rest
      (r.1, f :: r.2)

/-- The input-validation prefix of `Parse`, in source order. -/
def parseValidate (name path : String) (st : StatResult) : Option String :=
  if name = "" then some "name cannot be empty"
  else if path = "" then some "path cannot be empty"
  else
    match st with
    | .notExist => some ("path does not exist: " ++ path)
    | .accessErr e => some ("cannot access path " ++ path ++ ": " ++ e)
    | .entry isDir mode =>
      if isDir then some ("path is a directory, not an executable: " ++ path)
      else if mode &&& 0o111 == 0 then some ("path is not executable: " ++ path)
      else none

/-- `Parse`: validation, version detection, help/man extraction, source
tag, nested exploration.  (`runHelp` in this revision never returns a
non-nil error, so the help permission branch is dead; the man permission
branch sets the `help-only` tag.) -/
def parseModel (cfg : ParserConfig) (name path : String) (now : Nat)
    (st : StatResult) (verOracle : String → Option String) (helpOut : String)
    (manRes : ManOutcome) (subOracle : String → String → String) :
    Except String Tool × List ProbeEvent :=
  match parseValidate name path st with
  | some e => (.error e, [])
  | none =>
    let ver := firstVersionT verOracle cfg.versionCmds
    let tool0 : Tool :=
      { name := name, path := path, version := ver.1, parsedAt := now,
        source := "", subcommands := [], globalFlags := [] }
    let manOutput := match manRes with
      | .ok out => out
      | _ => ""
    let tool1 := match manRes with
      | .errPerm => { tool0 with source := "help-only" }
      | _ => tool0
    let tool2 :=
      if helpOut ≠ "" then parseHelpOutput { tool1 with source := "help" } helpOut
      else tool1
    let tool3 :=
      if manOutput ≠ "" then
        parseManPage
          { tool2 with source := if tool2.source = "" then "man" else "both" }
          manOutput
      else tool2
    let tool4 := if tool3.source = "" then { tool3 with source := "none" } else tool3
    let explored :=
      if tool4.subcommands.length > 0 then
        parseNestedT subOracle path tool4.subcommands 1 cfg.maxDepth
      else (tool4.subcommands, [])
    ({ tool4 with subcommands := explored.1 } |> Except.ok,
      ver.2.map ProbeEvent.version ++ [ProbeEvent.help, ProbeEvent.man] ++
        explored.2.map (fun p => ProbeEvent.sub p.1 p.2))

/-! ### Generation pipeline (cmd, part_001)

`processTools` body for one tool pulled from the queue.  The `Parse` call
and the three persistence writes are oracles; generated script text does
not influence classification (the generators live in the missing
bash/zsh generator files and only feed the persistence collaborator). -/

/-- `types.CatalogEntry`. -/
structure CatalogEntry where
  name : String
  path : String
  version : String
  generatedVersion : String
  contentHash : String
  generated : Bool
  lastScan : Nat
  hasHelp : Bool
  hasManPage : Bool
deriving DecidableEq, Repr

/-- `toolResult`: outcome record of processing one tool. -/
structure ToolResult where
  name : String
  status : String
  version : String
  generatedVersion : String
  contentHash : String
  error : Option String
  message : String
deriving DecidableEq, Repr

/-- The zero `toolResult` carrying just the name. -/
def ToolResult.init (name : String) : ToolResult := ⟨name, "", "", "", "", none, ""⟩

/-- Result of the `p.Parse(name, entry.Path)` call. -/
inductive ParseOutcome where
  | ok (t : Tool)
  | err (e : String)

/-- Outcomes of the three persistence writes (`SaveTool`,
`SaveBashCompletion`, `SaveZshCompletion`): `none` on success, the error
text otherwise. -/
structure SaveOracle where
  saveTool : Option String
  saveBash : Option String
  saveZsh : Option String

/-- A persistence write attempted for one tool. -/
inductive WriteAction where
  | saveTool
  | saveBash
  | saveZsh
deriving DecidableEq, Repr

/-- The save-and-emit tail of the worker loop body: parsed-tool save, bash
script save, zsh script save, then the success-path result fields. -/
def runSaves (r : ToolResult) (tool : Tool) (hash : String)
    (saves : SaveOracle) : Option ToolResult × List WriteAction :=
  match saves.saveTool with
  | some e =>
    (some { r with
            status := "failed", error := some ("failed to save: " ++ e) },
      [.saveTool])
  | none =>
    match saves.saveBash with
    | some e =>
      (some { r with
              status := "failed",
              error := some ("failed to save bash completion: " ++ e) },
        [.saveTool, .saveBash])
    | none =>
      match saves.saveZsh with
      | some e =>
        (some { r with
                status := "failed",
                error := some ("failed to save zsh completion: " ++ e) },
          [.saveTool, .saveBash, .saveZsh])
      | none =>
        (some { r with
                version := tool.version,
                generatedVersion := tool.version, contentHash := hash },
          [.saveTool, .saveBash, .saveZsh])

/-- One iteration of the `processTools` worker loop: classify and process
a single (name, cached-entry) tuple.  Returns the result sent on the
channel (`none` when the tool is silently dropped) and the persistence
writes attempted. -/
def processOne (name : String) (entry : CatalogEntry) (force : Bool)
    (parseRes : ParseOutcome) (saves : SaveOracle) :
    Option ToolResult × List WriteAction :=
  let r0 := ToolResult.init name
  match parseRes with
  | .err e => (some { r0 with status := "failed", error := some e }, [])
  | .ok tool =>
    if tool.source = "none" then (none, [])
    else
      let contentHash := tool.contentHash
      if !force && entry.generated && entry.generatedVersion ≠ "" then
        let versionMatch := entry.generatedVersion = tool.version
        let hashMatch := entry.contentHash ≠ "" && entry.contentHash = contentHash
        if versionMatch && hashMatch then
          (some { r0 with status := "skipped" }, [])
        else
          let r1 :=
            if !versionMatch then
              { r0 with
                status := "version_changed",
                message := "version changed (" ++ entry.generatedVersion ++
                  " → " ++ tool.version ++ ")" }
            else
              { r0 with status := "hash_changed", message := "help output changed" }
          runSaves r1 tool contentHash saves
      else
        runSaves { r0 with status := "success" } tool contentHash saves

/-- Collector-side tallies and queued catalog updates (`Generate`,
part_001 lines 107-155). -/
structure CollectState where
  succeeded : Nat
  skipped : Nat
  failed : Nat
  updates : String → Option CatalogEntry

/-- The catalog update queued for a regenerated tool. -/
def updatedEntry (catalog : String → CatalogEntry) (r : ToolResult) : CatalogEntry :=
  { catalog r.name with
    generated := true, version := r.version,
    generatedVersion := r.generatedVersion, contentHash := r.contentHash }

/-- One iteration of the result-collection loop: the `switch` on
`result.Status`. -/
def collectStep (catalog : String → CatalogEntry) (st : CollectState)
    (r : ToolResult) : CollectState :=
  if r.status = "success" then
    { st with
      succeeded := st.succeeded + 1,
      updates := fun n => if n = r.name then some (updatedEntry catalog r) else st.updates n }
  else if r.status = "skipped" then
    { st with skipped := st.skipped + 1 }
  else if r.status = "failed" then
    { st with failed := st.failed + 1 }
  else if r.status = "version_changed" ∨ r.status = "hash_changed" then
    { st with
      succeeded := st.succeeded + 1,
      updates := fun n => if n = r.name then some (updatedEntry catalog r) else st.updates n }
  else st

/-! ## Claim theorems -/

set_option maxRecDepth 40000

/-- C5: Parsing the line `"--format=json|yaml"` as a flag line yields a
Flag with long name `--format`, argument placeholder `value`, and
argument-choice list `["json","yaml"]`. -/
theorem C5_parseFlagLine_format :
    parseFlagLine "--format=json|yaml" =
      some { name := "--format", short := "", arg := "value",
             argumentValues := ["json", "yaml"], description := "",
             required := false } := by decide

/-! C2: fingerprint determinism and sensitivity.  The concrete tools below
differ from `c2Base` in exactly one nested flag's name, description, or
argument-choice list respectively. -/

/-- Base tool for the C2 sensitivity instances. -/
def c2Base : Tool :=
  ⟨"mytool", "/usr/bin/mytool", "1.0", 100, "help",
    [.mk "sub" [] "A subcommand" [] [⟨"--flag", "", "", [], "original", false⟩]], []⟩

/-- `c2Base` with the nested flag's name changed. -/
def c2NameChanged : Tool :=
  ⟨"mytool", "/usr/bin/mytool", "1.0", 100, "help",
    [.mk "sub" [] "A subcommand" [] [⟨"--flag2", "", "", [], "original", false⟩]], []⟩

/-- `c2Base` with the nested flag's description changed. -/
def c2DescChanged : Tool :=
  ⟨"mytool", "/usr/bin/mytool", "1.0", 100, "help",
    [.mk "sub" [] "A subcommand" [] [⟨"--flag", "", "", [], "changed", false⟩]], []⟩

/-- `c2Base` with the nested flag's argument-choice list changed. -/
def c2ChoicesChanged : Tool :=
  ⟨"mytool", "/usr/bin/mytool", "1.0", 100, "help",
    [.mk "sub" [] "A subcommand" [] [⟨"--flag", "", "", ["json", "yaml"], "original", false⟩]], []⟩

/-- `c2Base` with different name, path, version, timestamp and source but
identical Subcommands/GlobalFlags. -/
def c2OtherIdentity : Tool :=
  ⟨"othertool", "/opt/other", "9.9", 999, "both",
    [.mk "sub" [] "A subcommand" [] [⟨"--flag", "", "", [], "original", false⟩]], []⟩

/-- C2: two Tool values with identical Subcommands and GlobalFlags have
identical content fingerprints regardless of name, path, version,
timestamp, or source; and changing a nested flag's name, description, or
argument-choice list changes the fingerprint (shown on concrete witness
tools, the hash being SHA-256). -/
theorem C2_contentHash_determinism :
    (∀ t1 t2 : Tool, t1.subcommands = t2.subcommands →
      t1.globalFlags = t2.globalFlags → t1.contentHash = t2.contentHash) ∧
    Tool.contentHash c2Base ≠ Tool.contentHash c2NameChanged ∧
    Tool.contentHash c2Base ≠ Tool.contentHash c2DescChanged ∧
    Tool.contentHash c2Base ≠ Tool.contentHash c2ChoicesChanged := by
  refine ⟨fun t1 t2 h1 h2 => ?_, by decide, by decide, by decide⟩
  simp only [Tool.contentHash, contentEncoding, h1, h2]

/-- C2 witness: the determinism conjunct applied at two concrete tools
differing in every identity field. -/
theorem C2_contentHash_determinism_witness :
    Tool.contentHash c2Base = Tool.contentHash c2OtherIdentity :=
  C2_contentHash_determinism.1 c2Base c2OtherIdentity rfl rfl

/-! C4: the size/complexity guard.  The code's trigger examines the
recursive subcommand count, the *global* flags list and the total; a
nested command's own over-long flags list does not trigger the guard, so
the claim's "truncates exactly when ... any single Flags list exceeds
200" fails. -/

/-- A tool whose only limit violation is one nested command's 201-entry
flags list. -/
def c4NestedOverflow : Tool :=
  ⟨"t", "/t", "", 0, "help",
    [.mk "sub" [] "" [] (List.replicate 201 ⟨"--f", "", "", [], "", false⟩)], []⟩

/-- C4 counterexample: `c4NestedOverflow` has a single Flags list of 201
entries (over the 200 cap), yet `truncateTool` passes it through unchanged
with no warning — the claim would require truncation to 200 with one
warning. -/
theorem C4_counterexample :
    (c4NestedOverflow.subcommands.map (fun c => c.flags.length)) = [201] ∧
    maxFlags = 200 ∧
    truncateTool c4NestedOverflow = (c4NestedOverflow, []) := by
  refine ⟨by decide, rfl, ?_⟩
  rfl

/-- A tool with 501 flat top-level subcommands. -/
def c4Wide : Tool :=
  ⟨"t", "/t", "", 0, "help",
    List.replicate 501 (.mk "c" [] "" [] []), []⟩

/-- C4 (amended): the guard triggers on the recursive subcommand count,
the global flags list, or the total item count — not on nested per-command
flags lists; a tool within those limits passes through unchanged, and a
tool with 501 top-level subcommands is cut to exactly 500 with one warning
naming both counts. -/
theorem C4_truncateTool_amended :
    (∀ tool : Tool, (countItems tool).1 ≤ maxSubcommands →
      tool.globalFlags.length ≤ maxFlags →
      (countItems tool).1 + (countItems tool).2 ≤ maxTotalItems →
      truncateTool tool = (tool, [])) ∧
    truncateTool c4Wide =
      ({ c4Wide with subcommands := List.replicate 500 (.mk "c" [] "" [] []) },
        ["truncated subcommands from 501 to 500"]) := by
  constructor
  · intro tool h1 h2 h3
    unfold truncateTool
    have hb : ((countItems tool).1 > maxSubcommands ||
        tool.globalFlags.length > maxFlags ||
        ((countItems tool).1 + (countItems tool).2 > maxTotalItems)) = false := by
      simp only [Bool.or_eq_false_iff, decide_eq_false_iff_not, Nat.not_lt]
      exact ⟨⟨h1, h2⟩, h3⟩
    simp only [hb]
    rfl
  · rfl

/-- C4 witness: the pass-through conjunct applied at a small in-limits
tool. -/
theorem C4_truncateTool_amended_witness :
    truncateTool ⟨"t", "/t", "", 0, "help", [.mk "sub" [] "" [] []], []⟩ =
      (⟨"t", "/t", "", 0, "help", [.mk "sub" [] "" [] []], []⟩, []) :=
  C4_truncateTool_amended.1 _ (by decide) (by decide) (by decide)

/-! C8: output-size capping.  `checkOutputSize` cuts at the last newline of
the 1MB prefix only when that newline lies *strictly* past the halfway
point (`lastNL > MaxOutputSize/2`); a script whose last such newline sits
exactly at the halfway point is cut at 1MB instead, refuting the claim's
"at or after the halfway point". -/

/-- Half of the output cap. -/
def c8Half : Nat := maxOutputSize / 2

/-- An over-1MB script whose last newline inside the first 1MB sits exactly
at the halfway index. -/
def c8Script : List Char :=
  List.replicate c8Half 'a' ++ '\n' :: List.replicate (c8Half + 300) 'b'

/-- `lastNewline` of a cons cell, by definition. -/
lemma lastNewline_cons (c : Char) (cs : List Char) :
    lastNewline (c :: cs) =
      if lastNewline cs ≥ 0 then lastNewline cs + 1
      else if c = '\n' then 0 else -1 := rfl

/-- `lastNewline` is `-1` whenever it is negative. -/
lemma lastNewline_eq_neg_one_of_lt (l : List Char) (h : lastNewline l < 0) :
    lastNewline l = -1 := by
  induction l with
  | nil => rfl
  | cons c cs ih =>
    rw [lastNewline_cons] at h ⊢
    by_cases h1 : lastNewline cs ≥ 0
    · rw [if_pos h1] at h; omega
    · rw [if_neg h1] at h ⊢
      by_cases h2 : c = '\n'
      · rw [if_pos h2] at h; omega
      · rw [if_neg h2]

/-- `lastNewline` over an append: the right part wins when it has a
newline. -/
lemma lastNewline_append (xs ys : List Char) :
    lastNewline (xs ++ ys) =
      if lastNewline ys ≥ 0 then (xs.length : Int) + lastNewline ys
      else lastNewline xs := by
  induction xs with
  | nil =>
    simp only [List.nil_append, List.length_nil, Nat.cast_zero, zero_add]
    split_ifs with h
    · rfl
    · rw [lastNewline_eq_neg_one_of_lt ys (by omega)]; rfl
  | cons c xs ih =>
    rw [List.cons_append, lastNewline_cons, ih]
    by_cases hy : lastNewline ys ≥ 0
    · rw [if_pos hy, if_pos hy]
      have h2 : (xs.length : Int) + lastNewline ys ≥ 0 := by omega
      rw [if_pos h2]
      simp only [List.length_cons]
      push_cast
      omega
    · rw [if_neg hy, if_neg hy]
      exact (lastNewline_cons c xs).symm

/-- A replicate of a non-newline character has no newline. -/
lemma lastNewline_replicate (n : Nat) (c : Char) (h : ¬c = '\n') :
    lastNewline (List.replicate n c) = -1 := by
  induction n with
  | zero => rfl
  | succ n ih => rw [List.replicate_succ, lastNewline_cons, ih]; simp [h]

/-- `checkOutputSize` on an over-cap script, unfolded. -/
lemma checkOutputSize_gt (s : List Char) (tn : String)
    (h : s.length > maxOutputSize) :
    checkOutputSize s tn =
      ((if lastNewline (s.take maxOutputSize) > (maxOutputSize : Int) / 2 then
          (s.take maxOutputSize).take ((lastNewline (s.take maxOutputSize)).toNat + 1)
        else s.take maxOutputSize) ++ truncMarker.toList,
        ["generated script for '" ++ tn ++ "' exceeds " ++
          toString maxOutputSize ++ " bytes (" ++ toString s.length ++
          " bytes), truncating"]) := by
  rw [checkOutputSize, if_pos h]

/-- The 1MB prefix of `c8Script`, in closed form. -/
lemma c8_take :
    c8Script.take maxOutputSize =
      List.replicate c8Half 'a' ++ '\n' :: List.replicate (c8Half - 1) 'b' := by
  rw [c8Script, List.take_append_eq_append_take]
  have h1 : (List.replicate c8Half 'a').take maxOutputSize =
      List.replicate c8Half 'a' := by
    apply List.take_of_length_le
    simp only [List.length_replicate]
    decide
  have h4 : List.take (maxOutputSize - (List.replicate c8Half 'a').length)
      ('\n' :: List.replicate (c8Half + 300) 'b') =
      '\n' :: List.replicate (c8Half - 1) 'b' := by
    simp only [List.length_replicate]
    have he : maxOutputSize - c8Half = (c8Half - 1) + 1 := by decide
    rw [he, List.take_succ_cons, List.take_replicate,
      min_eq_left (show c8Half - 1 ≤ c8Half + 300 by decide)]
  rw [h1, h4]

/-- The last newline of the kept 1MB prefix sits exactly at the halfway
index. -/
lemma c8_lastNewline :
    lastNewline (c8Script.take maxOutputSize) = (c8Half : Int) := by
  rw [c8_take, lastNewline_append, lastNewline_cons,
    lastNewline_replicate _ _ (by decide)]
  simp

/-- C8 counterexample: `c8Script` exceeds 1MB and its kept prefix has its
last line boundary exactly at the halfway point, yet `checkOutputSize`
truncates at 1MB, not at that boundary (the cut-at-boundary result the
claim requires differs from the actual one). -/
theorem C8_counterexample :
    c8Script.length > maxOutputSize ∧
    lastNewline (c8Script.take maxOutputSize) = ((maxOutputSize / 2 : Nat) : Int) ∧
    (checkOutputSize c8Script "t").1 =
      c8Script.take maxOutputSize ++ truncMarker.toList ∧
    (checkOutputSize c8Script "t").1 ≠
      c8Script.take (maxOutputSize / 2 + 1) ++ truncMarker.toList := by
  have hlen : c8Script.length = 2 * c8Half + 301 := by
    rw [c8Script, List.length_append, List.length_cons, List.length_replicate,
      List.length_replicate]
    omega
  have hgt : c8Script.length > maxOutputSize := by
    rw [hlen]; decide
  have hfst : (checkOutputSize c8Script "t").1 =
      c8Script.take maxOutputSize ++ truncMarker.toList := by
    rw [checkOutputSize_gt _ _ hgt, c8_lastNewline]
    rw [if_neg (by decide)]
  refine ⟨hgt, by rw [c8_lastNewline]; rfl, hfst, ?_⟩
  rw [hfst]
  intro heq
  have hlh := congrArg List.length heq
  simp only [List.length_append, List.length_take, hlen] at hlh
  revert hlh
  decide

/-- C8 (amended): a script at or under 1MB passes through unchanged with
no warnings; over 1MB the script is cut at the last line boundary of its
1MB prefix when that boundary lies strictly past the halfway point and at
exactly 1MB otherwise, with the visible marker appended and exactly one
warning naming the tool and both sizes; the emitted body always ends with
the marker and never exceeds 1MB plus the marker. -/
theorem C8_checkOutputSize_amended :
    (∀ (s : List Char) (tn : String), s.length ≤ maxOutputSize →
      checkOutputSize s tn = (s, [])) ∧
    (∀ (s : List Char) (tn : String), s.length > maxOutputSize →
      checkOutputSize s tn =
        ((if lastNewline (s.take maxOutputSize) > (maxOutputSize : Int) / 2 then
            (s.take maxOutputSize).take ((lastNewline (s.take maxOutputSize)).toNat + 1)
          else s.take maxOutputSize) ++ truncMarker.toList,
          ["generated script for '" ++ tn ++ "' exceeds " ++
            toString maxOutputSize ++ " bytes (" ++ toString s.length ++
            " bytes), truncating"])) ∧
    (∀ (s : List Char) (tn : String), s.length > maxOutputSize →
      truncMarker.toList.IsSuffix (checkOutputSize s tn).1 ∧
      (checkOutputSize s tn).1.length ≤ maxOutputSize + truncMarker.toList.length) := by
  refine ⟨fun s tn h => ?_, fun s tn h => checkOutputSize_gt s tn h, fun s tn h => ?_⟩
  · rw [checkOutputSize, if_neg (by omega)]
  · rw [checkOutputSize_gt s tn h]
    refine ⟨List.suffix_append _ _, ?_⟩
    have hcap : (s.take maxOutputSize).length ≤ maxOutputSize := List.length_take_le _ _
    rw [List.length_append]
    split_ifs
    · have := (List.take_sublist ((lastNewline (s.take maxOutputSize)).toNat + 1)
        (s.take maxOutputSize)).length_le
      omega
    · omega

/-- C8 witness: the pass-through conjunct at a small script. -/
theorem C8_checkOutputSize_amended_witness :
    checkOutputSize "abc".toList "t" = ("abc".toList, []) :=
  C8_checkOutputSize_amended.1 "abc".toList "t" (by decide)

/-! C3: depth-limited exploration. -/

/-- Unfolding of the explorer at positive fuel. -/
lemma parseNestedGo_succ (oracle : String → String → String) (fuel : Nat)
    (basePath : String) (cmds : List Command) :
    parseNestedGo oracle (fuel + 1) basePath cmds =
      (let results := cmds.map (fun cmd =>
        let output := oracle basePath cmd.name
        if output = "" then (cmd, [(basePath, cmd.name)])
        else
          let cmd' := parseSubcommandOutput cmd output
          if cmd'.subcommands.length > 0 then
            let r := parseNestedGo oracle fuel (basePath ++ " " ++ cmd.name)
              cmd'.subcommands
            (cmd'.withSubcommands r.1, (basePath, cmd.name) :: r.2)
          else (cmd', [(basePath, cmd.name)]))
      (results.map Prod.fst, (results.map Prod.snd).flatten)) := rfl

/-- Every command holds at least one level. -/
lemma heightC_pos (c : Command) : 1 ≤ heightC c := by
  cases c with
  | mk n a d s f => rw [heightC]; omega

/-- Height of a member bounds into the list height. -/
lemma heightC_le_heightL {c : Command} {l : List Command} (h : c ∈ l) :
    heightC c ≤ heightL l := by
  induction l with
  | nil => cases h
  | cons d ds ih =>
    rw [heightL]
    rcases h with _ | h
    · exact le_max_left _ _
    · exact le_trans (ih (by assumption)) (le_max_right _ _)

/-- Height of a mapped list from a pointwise bound. -/
lemma heightL_map_le {f : Command → Command} {l : List Command} {k : Nat}
    (h : ∀ c ∈ l, heightC (f c) ≤ k) : heightL (l.map f) ≤ k := by
  induction l with
  | nil => simp [heightL]
  | cons c cs ih =>
    rw [List.map_cons, heightL]
    exact max_le (h c (.head _)) (ih fun d hd => h d (.tail _ hd))

/-- Height distributes over append as a max. -/
lemma heightL_append (l1 l2 : List Command) :
    heightL (l1 ++ l2) = max (heightL l1) (heightL l2) := by
  induction l1 with
  | nil => simp [heightL]
  | cons c cs ih => rw [List.cons_append, heightL, ih, heightL, max_assoc]

/-- A command of height one has no subcommands. -/
lemma subcommands_eq_nil_of_heightC_le_one {c : Command} (h : heightC c ≤ 1) :
    c.subcommands = [] := by
  cases c with
  | mk n a d s f =>
    rw [heightC] at h
    have hs : heightL s = 0 := by omega
    cases s with
    | nil => rfl
    | cons x xs =>
      rw [heightL] at hs
      have := heightC_pos x
      omega

/-- A command's height is one more than its sibling-list height. -/
lemma heightC_eq (c : Command) : heightC c = 1 + heightL c.subcommands := by
  cases c with
  | mk n a d s f => rw [heightC]; rfl

/-- `withSubcommands` replaces exactly the sibling list. -/
lemma heightC_withSubcommands (c : Command) (s : List Command) :
    heightC (c.withSubcommands s) = 1 + heightL s := by
  cases c with
  | mk n a d s0 f => rw [Command.withSubcommands, heightC]

/-- `parseCommandLine` yields flat commands. -/
lemma parseCommandLineC_flat {line : List Char} {c : Command}
    (h : parseCommandLineC line = some c) : c.subcommands = [] := by
  simp only [parseCommandLineC] at h
  repeat'
    first
      | exact Option.noConfusion h
      | (injection h with h'
         subst h'
         rfl)
      | split_ifs at h
      | split at h

/-- `parseIndentedCommand` yields flat commands. -/
lemma parseIndentedCommandC_flat {line : List Char} {c : Command}
    (h : parseIndentedCommandC line = some c) : c.subcommands = [] := by
  simp only [parseIndentedCommandC] at h
  repeat'
    first
      | exact Option.noConfusion h
      | (injection h with h'
         subst h'
         rfl)
      | split_ifs at h
      | split at h

/-- Adding one command (keyed dedup) cannot raise the height past either
input. -/
lemma heightL_addUniqueCmd_le (l : List Command) (c : Command) :
    heightL (addUniqueCmd l c) ≤ max (heightL l) (heightC c) := by
  rw [addUniqueCmd]
  split_ifs
  · exact le_max_left _ _
  · rw [heightL_append, heightL, heightL]
    simp

/-- Optional add keeps a height bound when added commands are flat. -/
lemma heightL_addCmdOpt_le {l : List Command} {o : Option Command} {k : Nat}
    (hk : 1 ≤ k) (hl : heightL l ≤ k)
    (ho : ∀ c, o = some c → c.subcommands = []) :
    heightL (addCmdOpt l o) ≤ k := by
  cases o with
  | none => exact hl
  | some c =>
    have hc : heightC c = 1 := by
      rw [heightC_eq, ho _ rfl, heightL]
    refine le_trans (heightL_addUniqueCmd_le l c) ?_
    rw [hc]
    omega

/-- An invariant preserved by a fold step is preserved by the fold. -/
lemma foldl_inv {α β : Type} (P : β → Prop) (f : β → α → β) (l : List α)
    (hstep : ∀ st x, P st → P (f st x)) :
    ∀ st, P st → P (l.foldl f st) := by
  induction l with
  | nil => exact fun st h => h
  | cons x xs ih => exact fun st h => ih _ (hstep st x h)

/-- One subcommand-help line never raises the sibling-list height past
`k ≥ 1`. -/
lemma subLineStep_height {st : ExtractState} {k : Nat} (hk : 1 ≤ k)
    (h : heightL st.subs ≤ k) (line : List Char) :
    heightL (subLineStep st line).subs ≤ k := by
  rw [subLineStep]
  split_ifs <;>
    first
      | exact h
      | exact heightL_addCmdOpt_le hk
          (heightL_addCmdOpt_le hk h (fun c hc => parseCommandLineC_flat hc))
          (fun c hc => parseIndentedCommandC_flat hc)
      | exact heightL_addCmdOpt_le hk h (fun c hc => parseCommandLineC_flat hc)
      | exact heightL_addCmdOpt_le hk h (fun c hc => parseIndentedCommandC_flat hc)

/-- A command's own sibling list stays flat through
`parseSubcommandOutput` when it started empty. -/
lemma parseSubcommandOutput_height {cmd : Command} (out : String)
    (h : cmd.subcommands = []) :
    heightL (parseSubcommandOutput cmd out).subcommands ≤ 1 := by
  cases cmd with
  | mk n a d s f =>
    simp only [Command.subcommands] at h
    subst h
    simp only [parseSubcommandOutput, Command.subcommands, Command.flags,
      Command.withSubcommands, Command.withFlags]
    refine foldl_inv (fun st => heightL st.subs ≤ 1) subLineStep _
      (fun st x hst => subLineStep_height (le_refl 1) hst x)
      ⟨false, false, [], f⟩ ?_
    simp [heightL]

/-- C3: subcommand exploration stops once the depth counter reaches the
configured maximum (no probes, commands returned untouched); with the
default maximum depth 2, a tool whose top-level commands are flat is
never grown beyond height 2 (at most one nesting level below the top
level), and every help probe issued targets a top-level command —
none extends the invocation path below the first level. -/
theorem C3_exploration_depth_bound :
    (∀ (oracle : String → String → String) (b : String) (cmds : List Command)
        (d m : Nat), m ≤ d → parseNestedT oracle b cmds d m = (cmds, [])) ∧
    (∀ (oracle : String → String → String) (b : String) (cmds : List Command),
        heightL cmds ≤ 1 →
        heightL (parseNestedT oracle b cmds 1 DefaultConfig.maxDepth).1 ≤
          DefaultConfig.maxDepth) ∧
    (∀ (oracle : String → String → String) (b : String) (cmds : List Command),
        ∀ p ∈ (parseNestedT oracle b cmds 1 DefaultConfig.maxDepth).2, p.1 = b) := by
  refine ⟨fun oracle b cmds d m h => ?_, fun oracle b cmds h => ?_, fun oracle b cmds => ?_⟩
  · rw [parseNestedT, Nat.sub_eq_zero_of_le h]
    rfl
  · show heightL (parseNestedGo oracle 1 b cmds).1 ≤ 2
    rw [parseNestedGo_succ]
    simp only [List.map_map]
    apply heightL_map_le
    intro c hc
    have hc1 : heightC c ≤ 1 := le_trans (heightC_le_heightL hc) h
    have hflat : c.subcommands = [] := subcommands_eq_nil_of_heightC_le_one hc1
    have hh := parseSubcommandOutput_height (oracle b c.name) hflat
    simp only [Function.comp, parseNestedGo]
    split_ifs
    · dsimp only
      omega
    · dsimp only
      rw [heightC_withSubcommands]
      omega
    · dsimp only
      rw [heightC_eq]
      omega
  · show ∀ p ∈ (parseNestedGo oracle 1 b cmds).2, p.1 = b
    rw [parseNestedGo_succ]
    intro p hp
    simp only [List.map_map, List.mem_flatten, List.mem_map] at hp
    obtain ⟨l, ⟨c, hc, hl⟩, hpl⟩ := hp
    subst hl
    simp only [Function.comp, parseNestedGo] at hpl
    split_ifs at hpl <;>
      simp only [List.mem_cons, List.mem_singleton, List.not_mem_nil, or_false] at hpl <;>
      rw [hpl]

/-- The adversarial oracle for the C3 witness: every probe reports one
further nested subcommand. -/
def c3Oracle : String → String → String :=
  fun _ _ => "Commands:\n  sub   Nested sub\n"

/-- One flat top-level command. -/
def c3Top : List Command := [.mk "top" [] "" [] []]

/-- C3 witness: the theorem applied at the adversarial oracle — stopped
recursion at depth 2 and the height bound under the default config. -/
theorem C3_exploration_depth_bound_witness :
    parseNestedT c3Oracle "tool x" c3Top 2 2 = (c3Top, []) ∧
    heightL (parseNestedT c3Oracle "tool" c3Top 1 DefaultConfig.maxDepth).1 ≤
      DefaultConfig.maxDepth :=
  ⟨C3_exploration_depth_bound.1 c3Oracle "tool x" c3Top 2 2 (le_refl 2),
    C3_exploration_depth_bound.2.1 c3Oracle "tool" c3Top (by decide)⟩

/-! C6: uniqueness of sibling lists. -/

/-- Keyed add preserves flag-name uniqueness. -/
lemma nodup_addUniqueFlag {l : List Flag} (f : Flag)
    (h : (l.map Flag.name).Nodup) : ((addUniqueFlag l f).map Flag.name).Nodup := by
  rw [addUniqueFlag]
  split_ifs with hmem
  · exact h
  · rw [List.map_append]
    refine List.Nodup.append h (by simp) ?_
    intro a ha hb
    simp only [List.map_cons, List.map_nil, List.mem_singleton] at hb
    subst hb
    simp only [List.mem_map] at ha
    obtain ⟨g, hg, hga⟩ := ha
    exact hmem (by rw [List.any_eq_true]; exact ⟨g, hg, by simp [hga]⟩)

/-- Keyed add preserves command-name uniqueness. -/
lemma nodup_addUniqueCmd {l : List Command} (c : Command)
    (h : (l.map Command.name).Nodup) :
    ((addUniqueCmd l c).map Command.name).Nodup := by
  rw [addUniqueCmd]
  split_ifs with hmem
  · exact h
  · rw [List.map_append]
    refine List.Nodup.append h (by simp) ?_
    intro a ha hb
    simp only [List.map_cons, List.map_nil, List.mem_singleton] at hb
    subst hb
    simp only [List.mem_map] at ha
    obtain ⟨g, hg, hga⟩ := ha
    exact hmem (by rw [List.any_eq_true]; exact ⟨g, hg, by simp [hga]⟩)

/-- Optional keyed add preserves flag-name uniqueness. -/
lemma nodup_addFlagOpt {l : List Flag} (o : Option Flag)
    (h : (l.map Flag.name).Nodup) : ((addFlagOpt l o).map Flag.name).Nodup := by
  cases o with
  | none => exact h
  | some f => exact nodup_addUniqueFlag f h

/-- Optional keyed add preserves command-name uniqueness. -/
lemma nodup_addCmdOpt {l : List Command} (o : Option Command)
    (h : (l.map Command.name).Nodup) :
    ((addCmdOpt l o).map Command.name).Nodup := by
  cases o with
  | none => exact h
  | some c => exact nodup_addUniqueCmd c h

/-- One help line preserves uniqueness of both sibling lists. -/
lemma helpLineStep_nodup {st : ExtractState}
    (h : (st.subs.map Command.name).Nodup ∧ (st.flags.map Flag.name).Nodup)
    (line : List Char) :
    ((helpLineStep st line).subs.map Command.name).Nodup ∧
      ((helpLineStep st line).flags.map Flag.name).Nodup := by
  rw [helpLineStep]
  split_ifs <;>
    refine ⟨?_, ?_⟩ <;>
    first
      | exact h.1
      | exact h.2
      | exact nodup_addCmdOpt _ h.1
      | exact nodup_addCmdOpt _ (nodup_addCmdOpt _ h.1)
      | exact nodup_addFlagOpt _ h.2
      | exact nodup_addFlagOpt _ (nodup_addFlagOpt _ h.2)

/-- One subcommand-help line preserves uniqueness of both sibling lists. -/
lemma subLineStep_nodup {st : ExtractState}
    (h : (st.subs.map Command.name).Nodup ∧ (st.flags.map Flag.name).Nodup)
    (line : List Char) :
    ((subLineStep st line).subs.map Command.name).Nodup ∧
      ((subLineStep st line).flags.map Flag.name).Nodup := by
  rw [subLineStep]
  split_ifs <;>
    refine ⟨?_, ?_⟩ <;>
    first
      | exact h.1
      | exact h.2
      | exact nodup_addCmdOpt _ h.1
      | exact nodup_addCmdOpt _ (nodup_addCmdOpt _ h.1)
      | exact nodup_addFlagOpt _ h.2
      | exact nodup_addFlagOpt _ (nodup_addFlagOpt _ h.2)

/-- Setting an element back at its own index is the identity. -/
lemma set_get_eq {α : Type} : ∀ (l : List α) (i : Nat) (a : α),
    l.get? i = some a → l.set i a = l
  | [], i, a, h => by cases h
  | x :: xs, 0, a, h => by
    simp only [List.get?] at h
    injection h with h'
    subst h'
    rfl
  | x :: xs, i + 1, a, h => by
    simp only [List.get?] at h
    show x :: xs.set i a = x :: xs
    rw [set_get_eq xs i a h]

/-- A description-only update keeps the name multiset of the flags list. -/
lemma map_name_set_description {flags : List Flag} {i : Nat} {fl : Flag}
    (hget : flags.get? i = some fl) (d : String) :
    ((flags.set i { fl with description := d }).map Flag.name) =
      flags.map Flag.name := by
  rw [List.map_set]
  exact set_get_eq _ i _ (by rw [List.get?_map, hget]; rfl)

/-- One man-page line preserves uniqueness of the global flags list. -/
lemma manLineStep_nodup {st : ManState}
    (h : (st.flags.map Flag.name).Nodup) (line : List Char) :
    ((manLineStep st line).flags.map Flag.name).Nodup := by
  rw [manLineStep]
  split_ifs <;> try exact h
  all_goals
    first
      | (cases hp : parseFlagLineC line with
         | none => exact h
         | some f =>
           try dsimp only
           split_ifs <;> exact nodup_addUniqueFlag _ h)
      | (cases hc : st.cur with
         | none => exact h
         | some i =>
           try dsimp only
           cases hget : st.flags.get? i with
           | none => exact h
           | some fl =>
             try dsimp only
             first
               | (split_ifs with hd
                  · rw [map_name_set_description hget]
                    exact h
                  · exact h)
               | exact h)

/-- The double-feed input: the same flag once via inline detection and
once via a structured Options section. -/
def c6DoubleFeed : String :=
  "Usage: tool\n\n  --verbose       First inline verbose\n\nOptions:\n  --verbose   Same flag again, in a section\n"

/-- C6: within any single sibling list grown by extraction, command names
and flag identity keys stay unique (help output, subcommand output and
man-page extraction all preserve uniqueness), and feeding the same flag
twice — once inline, once via a structured section — yields exactly one
entry, the later duplicate discarded rather than merged. -/
theorem C6_sibling_uniqueness :
    (∀ (tool : Tool) (out : String),
      (tool.subcommands.map Command.name).Nodup →
      (tool.globalFlags.map Flag.name).Nodup →
      ((parseHelpOutput tool out).subcommands.map Command.name).Nodup ∧
        ((parseHelpOutput tool out).globalFlags.map Flag.name).Nodup) ∧
    (∀ (cmd : Command) (out : String),
      (cmd.subcommands.map Command.name).Nodup →
      (cmd.flags.map Flag.name).Nodup →
      ((parseSubcommandOutput cmd out).subcommands.map Command.name).Nodup ∧
        ((parseSubcommandOutput cmd out).flags.map Flag.name).Nodup) ∧
    (∀ (tool : Tool) (out : String),
      (tool.globalFlags.map Flag.name).Nodup →
      ((parseManPage tool out).globalFlags.map Flag.name).Nodup) ∧
    (parseHelpOutput ⟨"tool", "/t", "", 0, "", [], []⟩ c6DoubleFeed).globalFlags =
      [⟨"--verbose", "", "", [], "First inline verbose", false⟩] := by
  refine ⟨fun tool out h1 h2 => ?_, fun cmd out h1 h2 => ?_, fun tool out h1 => ?_, by decide⟩
  · rw [parseHelpOutput]
    exact foldl_inv
      (fun st => (st.subs.map Command.name).Nodup ∧ (st.flags.map Flag.name).Nodup)
      helpLineStep _ (fun st x hst => helpLineStep_nodup hst x)
      ⟨false, false, tool.subcommands, tool.globalFlags⟩ ⟨h1, h2⟩
  · cases cmd with
    | mk n a d s f =>
      simp only [Command.subcommands, Command.flags] at h1 h2 ⊢
      simp only [parseSubcommandOutput, Command.subcommands, Command.flags,
        Command.withSubcommands, Command.withFlags]
      exact foldl_inv
        (fun st => (st.subs.map Command.name).Nodup ∧ (st.flags.map Flag.name).Nodup)
        subLineStep _ (fun st x hst => subLineStep_nodup hst x)
        ⟨false, false, s, f⟩ ⟨h1, h2⟩
  · rw [parseManPage]
    exact foldl_inv (fun st => (st.flags.map Flag.name).Nodup)
      manLineStep _ (fun st x hst => manLineStep_nodup hst x)
      ⟨false, none, tool.globalFlags⟩ h1

/-- C6 witness: uniqueness of the extracted lists on a concrete help
text, through the theorem's first conjunct. -/
theorem C6_sibling_uniqueness_witness :
    ((parseHelpOutput ⟨"t", "/t", "", 0, "", [], []⟩
        "Commands:\n  alpha   First\n  beta    Second\n").subcommands.map
      Command.name).Nodup ∧
      ((parseHelpOutput ⟨"t", "/t", "", 0, "", [], []⟩
        "Commands:\n  alpha   First\n  beta    Second\n").globalFlags.map
        Flag.name).Nodup :=
  C6_sibling_uniqueness.1 ⟨"t", "/t", "", 0, "", [], []⟩ _ (by decide) (by decide)

/-! C7: version detection.  Two divergences from the claim: each probe is
bounded by the config's shared `HelpTimeout` (default 5s, not 2s), and a
probe whose output yields an empty extraction does not stop the search —
the loop moves on to the next probe flag. -/

/-- Oracle for the C7 counterexample: the first probe answers with a long
line no pattern matches, the second with a plain version. -/
def c7Oracle : String → Option String :=
  fun flag =>
    if flag = "--version" then some (strOf (List.replicate 60 'a'))
    else if flag = "-V" then some "1.2.3"
    else none

/-- C7 counterexample: under the default config the first probe flag is
`--version` and `c7Oracle` gives it output (a 60-character line, no
version pattern, too long for the verbatim fallback, so its extraction is
empty).  The claim then requires the detector to return empty, but it
returns `"1.2.3"` from the second probe; and the per-probe timeout the
code passes is the 5000ms HelpTimeout, not 2000ms. -/
theorem C7_counterexample :
    versionProbeTimeoutMs DefaultConfig = 5000 ∧
    versionProbeTimeoutMs DefaultConfig ≠ 2000 ∧
    DefaultConfig.versionCmds.head? = some "--version" ∧
    c7Oracle "--version" = some (strOf (List.replicate 60 'a')) ∧
    extractVersion (strOf (List.replicate 60 'a')) = "" ∧
    detectVersionWithConfig c7Oracle DefaultConfig = "1.2.3" ∧
    detectVersionWithConfig c7Oracle DefaultConfig ≠ "" :=
  ⟨rfl, by decide, rfl, rfl, by decide, by decide, by decide⟩

/-- The probe loop returns the first non-empty extraction, skipping
earlier probes whose extraction came up empty. -/
lemma firstVersion_skip (oracle : String → Option String) :
    ∀ (l1 : List String) (f : String) (l2 : List String),
      (∀ g ∈ l1, tryVersionFlag oracle g = "") →
      firstVersion oracle (l1 ++ f :: l2) = firstVersion oracle (f :: l2)
  | [], f, l2, _ => rfl
  | g :: gs, f, l2, h => by
    have hrec := firstVersion_skip oracle gs f l2 (fun x hx => h x (.tail _ hx))
    rw [List.cons_append, firstVersion, h g (.head _)]
    simpa using hrec

/-- The loop yields empty exactly when every probe's extraction is
empty. -/
lemma firstVersion_empty_iff (oracle : String → Option String) :
    ∀ l : List String,
      (firstVersion oracle l = "" ↔ ∀ f ∈ l, tryVersionFlag oracle f = "")
  | [] => by simp [firstVersion]
  | f :: rest => by
    rw [firstVersion]
    by_cases hv : tryVersionFlag oracle f ≠ ""
    · rw [if_pos hv]
      constructor
      · intro h
        exact absurd h hv
      · intro h
        exact absurd (h f (.head _)) hv
    · rw [if_neg hv]
      push_neg at hv
      rw [firstVersion_empty_iff oracle rest]
      constructor
      · intro h g hg
        rcases hg with _ | hg
        · exact hv
        · exact h g (by assumption)
      · intro h g hg
        exact h g (.tail _ hg)

/-- C7 (amended): probes are tried in the configured order, each handed
the config's HelpTimeout (5000ms under the default config, whose probe
list is `--version`, `-V`, `version`, `-v`); the result is the first
probe whose extraction is non-empty, probes with empty extraction being
passed over; the result is empty exactly when every probe's extraction is
empty (no version detected, not an error).  Extraction itself takes the
first line and applies the labelled/bare semantic-version pattern, the
bare-number fallback, then the sub-50-character verbatim fallback,
otherwise empty. -/
theorem C7_detectVersion_amended :
    (∀ (oracle : String → Option String) (cfg : ParserConfig),
      detectVersionWithConfig oracle cfg = "" ↔
        ∀ f ∈ cfg.versionCmds, tryVersionFlag oracle f = "") ∧
    (∀ (oracle : String → Option String) (cfg : ParserConfig)
        (l1 : List String) (f : String) (l2 : List String),
      cfg.versionCmds = l1 ++ f :: l2 →
      (∀ g ∈ l1, tryVersionFlag oracle g = "") →
      tryVersionFlag oracle f ≠ "" →
      detectVersionWithConfig oracle cfg = tryVersionFlag oracle f) ∧
    (DefaultConfig.versionCmds = ["--version", "-V", "version", "-v"] ∧
      versionProbeTimeoutMs DefaultConfig = 5000) ∧
    (extractVersion "git version 2.39.2" = "2.39.2" ∧
      extractVersion "v1.2.3-beta.1" = "1.2.3-beta.1" ∧
      extractVersion "7.5 (release)" = "7.5" ∧
      extractVersion "dev build" = "dev build" ∧
      extractVersion (strOf (List.replicate 60 'a')) = "") := by
  refine ⟨fun oracle cfg => firstVersion_empty_iff oracle cfg.versionCmds,
    fun oracle cfg l1 f l2 hcmds h1 hf => ?_, ⟨rfl, rfl⟩,
    by decide, by decide, by decide, by decide, by decide⟩
  rw [detectVersionWithConfig, hcmds, firstVersion_skip oracle l1 f l2 h1,
    firstVersion, if_pos hf]

/-- C7 witness: the no-output oracle, through the theorem's emptiness
characterization. -/
theorem C7_detectVersion_amended_witness :
    detectVersionWithConfig (fun _ => none) DefaultConfig = "" :=
  (C7_detectVersion_amended.1 (fun _ => none) DefaultConfig).mpr (by decide)

/-! C9: input validation fails before any probe. -/

/-- A validation failure short-circuits `Parse` before any probe. -/
lemma parseModel_validate_err {name path : String} {st : StatResult}
    {e : String} (cfg : ParserConfig) (now : Nat)
    (verO : String → Option String) (helpO : String) (manR : ManOutcome)
    (subO : String → String → String)
    (hv : parseValidate name path st = some e) :
    parseModel cfg name path now st verO helpO manR subO = (.error e, []) := by
  simp only [parseModel, hv]

/-- C9: whenever the tool name is empty, the path is empty, the path does
not exist, the path is a directory, or the path is not executable, Parse
returns an error and its probe trace is empty — no help, man, or version
probe is attempted. -/
theorem C9_parse_input_validation :
    ∀ (cfg : ParserConfig) (name path : String) (now : Nat) (st : StatResult)
      (verO : String → Option String) (helpO : String) (manR : ManOutcome)
      (subO : String → String → String),
      (name = "" ∨ path = "" ∨ st = .notExist ∨
        (∃ m, st = .entry true m) ∨
        (∃ m, st = .entry false m ∧ m &&& 0o111 = 0)) →
      (∃ e, (parseModel cfg name path now st verO helpO manR subO).1 = .error e) ∧
      (parseModel cfg name path now st verO helpO manR subO).2 = [] := by
  intro cfg name path now st verO helpO manR subO hcond
  have hsome : ∃ e, parseValidate name path st = some e := by
    rw [parseValidate.eq_def]
    by_cases h1 : name = ""
    · rw [if_pos h1]; exact ⟨_, rfl⟩
    · rw [if_neg h1]
      by_cases h2 : path = ""
      · rw [if_pos h2]; exact ⟨_, rfl⟩
      · rw [if_neg h2]
        rcases hcond with h | h | h | ⟨m, h⟩ | ⟨m, h, hm⟩
        · exact absurd h h1
        · exact absurd h h2
        · subst h; exact ⟨_, rfl⟩
        · subst h; exact ⟨_, rfl⟩
        · subst h
          exact ⟨"path is not executable: " ++ path, by simp [hm]⟩
  obtain ⟨e, he⟩ := hsome
  have hm := parseModel_validate_err cfg now verO helpO manR subO he
  exact ⟨⟨e, by rw [hm]⟩, by rw [hm]⟩

/-- C9 witness: empty tool name, through the theorem. -/
theorem C9_parse_input_validation_witness :
    (∃ e, (parseModel DefaultConfig "" "/bin/ls" 0 (.entry false 0o755)
      (fun _ => none) "" .errOther (fun _ _ => "")).1 = .error e) ∧
    (parseModel DefaultConfig "" "/bin/ls" 0 (.entry false 0o755)
      (fun _ => none) "" .errOther (fun _ _ => "")).2 = [] :=
  C9_parse_input_validation DefaultConfig "" "/bin/ls" 0 (.entry false 0o755)
    (fun _ => none) "" .errOther (fun _ _ => "") (Or.inl rfl)

/-! C1 and C10: the worker-loop classification and the skip frame. -/

/-- Status of the save-and-emit tail: failed when any write fails,
otherwise the pre-computed status. -/
lemma runSaves_status (r : ToolResult) (tool : Tool) (hash : String)
    (saves : SaveOracle) :
    ((runSaves r tool hash saves).1.map ToolResult.status) =
      if saves.saveTool ≠ none ∨ saves.saveBash ≠ none ∨ saves.saveZsh ≠ none
      then some "failed" else some r.status := by
  rcases saves with ⟨st, sb, sz⟩
  cases st <;> cases sb <;> cases sz <;> simp [runSaves]

/-- The skip path of the worker loop: early return, no writes. -/
lemma processOne_skip {nm : String} {entry : CatalogEntry} {tool : Tool}
    (saves : SaveOracle) (hsrc : tool.source ≠ "none")
    (hgen : entry.generated = true) (hgv : entry.generatedVersion ≠ "")
    (hvm : entry.generatedVersion = tool.version)
    (hch : entry.contentHash ≠ "") (hhm : entry.contentHash = tool.contentHash) :
    processOne nm entry false (.ok tool) saves =
      (some { ToolResult.init nm with status := "skipped" }, []) := by
  simp only [processOne]
  rw [if_neg hsrc]
  have hg1 : (!false && entry.generated && decide ¬(entry.generatedVersion = "")) = true := by
    rw [hgen]
    simp [hgv]
  simp only [ne_eq, hg1, if_true]
  rw [if_pos]
  simp only [hvm, hch, hhm, decide_eq_true_eq]
  simp [hvm, hch, hhm]
  exact hhm ▸ hch

/-- Collector step on a skipped result: only the skipped counter moves. -/
lemma collectStep_skipped (catalog : String → CatalogEntry)
    (st : CollectState) {r : ToolResult} (hr : r.status = "skipped") :
    collectStep catalog st r = { st with skipped := st.skipped + 1 } := by
  rw [collectStep, if_neg (by rw [hr]; decide), if_pos hr]

/-- C10: a skipped tool triggers no persistence writes (no parsed-tool
save, no bash script, no zsh script), and the collecting side leaves the
queued catalog updates and the succeeded/failed counters untouched,
incrementing only the skipped tally. -/
theorem C10_skip_frame :
    (∀ (nm : String) (entry : CatalogEntry) (tool : Tool) (saves : SaveOracle),
      tool.source ≠ "none" → entry.generated = true →
      entry.generatedVersion ≠ "" →
      entry.generatedVersion = tool.version →
      entry.contentHash ≠ "" → entry.contentHash = tool.contentHash →
      processOne nm entry false (.ok tool) saves =
        (some { ToolResult.init nm with status := "skipped" }, [])) ∧
    (∀ (catalog : String → CatalogEntry) (st : CollectState) (r : ToolResult),
      r.status = "skipped" →
      collectStep catalog st r = { st with skipped := st.skipped + 1 }) :=
  ⟨fun _ _ _ saves hsrc hgen hgv hvm hch hhm =>
      processOne_skip saves hsrc hgen hgv hvm hch hhm,
    fun catalog st r hr => collectStep_skipped catalog st hr⟩

/-- Concrete skip-condition tool for the C10 witness. -/
def c10Tool : Tool := ⟨"w", "/w", "1.0", 0, "help", [], []⟩

/-- Cached entry matching `c10Tool` exactly. -/
def c10Entry : CatalogEntry :=
  ⟨"w", "/w", "1.0", "1.0", Tool.contentHash c10Tool, true, 0, false, false⟩

/-- C10 witness: the skip path at a concrete tool — even with a failing
storage oracle nothing is written — and a collector step on a skipped
result. -/
theorem C10_skip_frame_witness :
    processOne "w" c10Entry false (.ok c10Tool) ⟨some "disk full", none, none⟩ =
      (some { ToolResult.init "w" with status := "skipped" }, []) ∧
    collectStep (fun _ => c10Entry) ⟨0, 0, 0, fun _ => none⟩
        ⟨"w", "skipped", "", "", "", none, ""⟩ =
      { succeeded := 0, skipped := 0 + 1, failed := 0, updates := fun _ => none } :=
  ⟨C10_skip_frame.1 "w" c10Entry c10Tool ⟨some "disk full", none, none⟩
      (by decide) rfl (by decide) rfl (by decide) rfl,
    C10_skip_frame.2 (fun _ => c10Entry) ⟨0, 0, 0, fun _ => none⟩
      ⟨"w", "skipped", "", "", "", none, ""⟩ rfl⟩

/-! C1: per-tool outcome classification.  The code has a fifth outcome,
`success`, taken whenever regeneration is forced or the entry was never
generated (or has an empty generated-version): it is none of the claim's
four outcomes. -/

/-- Tool for the C1 counterexample: parses fine, source help. -/
def c1Tool : Tool := ⟨"git", "/usr/bin/git", "1.0", 0, "help", [], []⟩

/-- Cached entry agreeing with `c1Tool` on version and fingerprint. -/
def c1Entry : CatalogEntry :=
  ⟨"git", "/usr/bin/git", "1.0", "1.0", Tool.contentHash c1Tool, true, 0, false, false⟩

/-- C1 counterexample: with `force = true`, a cached entry whose
generated version equals the fresh version and whose fingerprint equals
the fresh fingerprint, and no errors anywhere, the worker emits status
`success` — matching none of the claim's four outcomes (not skipped:
force is true; not version-changed: versions are equal; not hash-changed:
fingerprints are equal; not failed: no error). -/
theorem C1_counterexample :
    ((processOne "git" c1Entry true (.ok c1Tool) ⟨none, none, none⟩).1.map
      ToolResult.status) = some "success" ∧
    c1Entry.generatedVersion = c1Tool.version ∧
    c1Entry.contentHash = Tool.contentHash c1Tool ∧
    c1Entry.contentHash ≠ "" ∧
    ("success" ∉ (["skipped", "version_changed", "hash_changed", "failed"] : List String)) :=
  ⟨rfl, rfl, rfl, by decide, by decide⟩

/-- The claim side of the amended outcome classification, written from
the amended specification's words: skipped when not forced, previously
generated with a non-empty generated version, and both the version and
the non-empty fingerprint match; failed when any persistence write
errors; version-changed / hash-changed when cached but the respective
field mismatches; plain success otherwise (forced or first-time
generation). -/
def specStatus (entry : CatalogEntry) (force : Bool) (tool : Tool)
    (saves : SaveOracle) : String :=
  let cached := force = false ∧ entry.generated = true ∧ entry.generatedVersion ≠ ""
  let vm := entry.generatedVersion = tool.version
  let hm := entry.contentHash ≠ "" ∧ entry.contentHash = tool.contentHash
  if cached ∧ vm ∧ hm then "skipped"
  else if saves.saveTool ≠ none ∨ saves.saveBash ≠ none ∨ saves.saveZsh ≠ none then "failed"
  else if cached ∧ ¬vm then "version_changed"
  else if cached ∧ vm ∧ ¬hm then "hash_changed"
  else "success"

set_option maxHeartbeats 2000000 in
/-- C1 (amended): the worker produces exactly one of five outcomes — a
parse error yields `failed` with the error recorded; a tool whose source
is `none` is silently dropped from the results; otherwise the emitted
status is precisely the spec-side classification `specStatus`: skipped
under the full cache-hit condition, failed on any persistence error,
version-changed / hash-changed when cached with the respective mismatch,
and success when forced or not previously generated. -/
theorem C1_processOne_amended :
    (∀ (nm e : String) (entry : CatalogEntry) (force : Bool) (saves : SaveOracle),
      processOne nm entry force (.err e) saves =
        (some { ToolResult.init nm with status := "failed", error := some e }, [])) ∧
    (∀ (nm : String) (entry : CatalogEntry) (force : Bool) (tool : Tool)
        (saves : SaveOracle),
      tool.source = "none" →
      processOne nm entry force (.ok tool) saves = (none, [])) ∧
    (∀ (nm : String) (entry : CatalogEntry) (force : Bool) (tool : Tool)
        (saves : SaveOracle),
      tool.source ≠ "none" →
      ((processOne nm entry force (.ok tool) saves).1.map ToolResult.status) =
        some (specStatus entry force tool saves)) := by
  refine ⟨fun nm e entry force saves => rfl,
    fun nm entry force tool saves h => by simp [processOne, h],
    fun nm entry force tool saves hsrc => ?_⟩
  simp only [processOne, specStatus]
  rw [if_neg hsrc]
  split_ifs <;>
    try rfl
  all_goals try (rw [runSaves_status]; split_ifs <;> try rfl)
  all_goals
    exfalso
  all_goals
    simp only [Bool.and_eq_true, Bool.not_eq_true', decide_eq_true_eq, ne_eq,
      Bool.not_eq_eq_eq_not, Bool.not_true, decide_eq_false_iff_not] at *
  all_goals tauto

/-- C1 witness: the classification conjunct applied at a concrete
cache-hit input, where the status is `skipped` on both sides. -/
theorem C1_processOne_amended_witness :
    ((processOne "w" c10Entry false (.ok c10Tool) ⟨none, none, none⟩).1.map
        ToolResult.status) =
      some (specStatus c10Entry false c10Tool ⟨none, none, none⟩) ∧
    specStatus c10Entry false c10Tool ⟨none, none, none⟩ = "skipped" :=
  ⟨C1_processOne_amended.2.2 "w" c10Entry false c10Tool ⟨none, none, none⟩
      (by decide),
    by decide⟩

end Tabgen
